import Mathlib

/-
Shallow embedding of the CHIP-8 interpreter core (crate chip8):
  src/chip8/src/memory.rs  (Ram, Stack)
  src/chip8/src/screen.rs  (Screen)
  src/chip8/src/lib.rs     (CPU: tick, tick_timers, keypress, load, execute)

Machine integers are modelled as Nat with explicit reductions where the Rust
types wrap (u8 arithmetic is taken modulo 256, u16 arithmetic modulo 65536,
a mask-and-shift such as (op & 0x0F00) >> 8 is op / 256 % 16).  A Rust panic
(out-of-bounds array index, integer underflow followed by an out-of-bounds
index, the unimplemented! macro) is modelled by returning none: the operation
produces no successor state.  Fixed-size arrays are modelled as total
functions from Nat, indexed exactly as the code indexes them; the guards that
produce none are exactly the bounds checks the Rust indexing performs.
The random byte drawn by opcode Cxnn is passed in as an explicit oracle
argument rand_byte.
-/

namespace Chip8

def RAM_SIZE : Nat := 4096
def START_ADDR : Nat := 0x200
def STACK_SIZE : Nat := 16
def NUM_REGS : Nat := 16
def NUM_KEYS : Nat := 16
def SCREEN_WIDTH : Nat := 64
def SCREEN_HEIGHT : Nat := 32

/-- Array write: arr[i] = a, all other cells unchanged. -/
def upd {α : Type} (f : Nat → α) (i : Nat) (a : α) : Nat → α :=
  fun j => if j = i then a else f j

/-- screen.rs: Screen { display: [bool; SCREEN_WIDTH * SCREEN_HEIGHT] }. -/
structure Screen where
  display : Nat → Bool

/-- screen.rs: Screen::clear. -/
def Screen.clear (_ : Screen) : Screen := ⟨fun _ => false⟩

/-- memory.rs: Ram { data: [u8; RAM_SIZE] }. -/
structure Ram where
  data : Nat → Nat

/-- memory.rs: Ram::fetch_instruction, big-endian combination of the bytes at
address and address + 1; the second index is the one that can go out of
bounds first. -/
def Ram.fetch_instruction (r : Ram) (address : Nat) : Option Nat :=
  if address + 1 < RAM_SIZE then
    some ((r.data address) <<< 8 ||| r.data (address + 1))
  else none

/-- memory.rs: Ram::fetch_byte (panics out of bounds). -/
def Ram.fetch_byte (r : Ram) (address : Nat) : Option Nat :=
  if address < RAM_SIZE then some (r.data address) else none

/-- memory.rs: Ram::write_byte (panics out of bounds). -/
def Ram.write_byte (r : Ram) (address : Nat) (value : Nat) : Option Ram :=
  if address < RAM_SIZE then some ⟨upd r.data address value⟩ else none

/-- memory.rs: Ram::load copies data into self.data[0x200 .. 0x200+len];
the slice expression panics (no partial copy) when the end exceeds RAM_SIZE. -/
def Ram.load (r : Ram) (data : List Nat) : Option Ram :=
  if START_ADDR + data.length ≤ RAM_SIZE then
    some ⟨fun a =>
      if START_ADDR ≤ a ∧ a < START_ADDR + data.length then data.getD (a - START_ADDR) 0
      else r.data a⟩
  else none

/-- memory.rs: Stack { stack_point: u16, stack: [u16; STACK_SIZE] }. -/
structure Stack where
  stack_point : Nat
  stack : Nat → Nat

/-- memory.rs: Stack::push writes stack[stack_point] (panics when the index
is out of bounds, i.e. when depth is already 16) then increments
stack_point. -/
def Stack.push (s : Stack) (value : Nat) : Option Stack :=
  if s.stack_point < STACK_SIZE then
    some ⟨s.stack_point + 1, upd s.stack s.stack_point value⟩
  else none

/-- memory.rs: Stack::pop decrements stack_point (u16 underflow when 0, and
the subsequent index 65535 is out of bounds) then reads stack[stack_point]
(out of bounds when the decremented pointer is still ≥ 16). -/
def Stack.pop (s : Stack) : Option (Nat × Stack) :=
  if s.stack_point = 0 then none
  else if s.stack_point - 1 < STACK_SIZE then
    some (s.stack (s.stack_point - 1), ⟨s.stack_point - 1, s.stack⟩)
  else none

/-- lib.rs: struct CPU. -/
structure CPU where
  program_counter : Nat
  v_registers : Nat → Nat
  i_register : Nat
  stack : Stack
  ram : Ram
  screen : Screen
  keys : Nat → Bool
  delay_timer : Nat
  sound_timer : Nat

/-- lib.rs: CPU::tick_timers — the body only touches delay_timer. -/
def CPU.tick_timers (c : CPU) : CPU :=
  if c.delay_timer > 0 then { c with delay_timer := c.delay_timer - 1 } else c

/-- lib.rs: CPU::keypress — self.keys[idx] = pressed, an indexing that panics
for idx ≥ 16. -/
def CPU.keypress (c : CPU) (idx : Nat) (pressed : Bool) : Option CPU :=
  if idx < NUM_KEYS then some { c with keys := upd c.keys idx pressed }
  else none

/-- lib.rs: CPU::load delegates to Ram::load. -/
def CPU.load (c : CPU) (data : List Nat) : Option CPU :=
  (c.ram.load data).map (fun r => { c with ram := r })

/-- lib.rs: CPU::fetch — reads the instruction at the program counter, then
advances the program counter by 2 (u16 arithmetic). -/
def CPU.fetch (c : CPU) : Option (Nat × CPU) :=
  (c.ram.fetch_instruction c.program_counter).map
    (fun ins => (ins, { c with program_counter := (c.program_counter + 2) % 65536 }))

/-- Dxyn helper: the framebuffer index (vx + col) % SCREEN_WIDTH
+ ((vy + row) % SCREEN_HEIGHT) * SCREEN_WIDTH computed in the draw loop. -/
def drawIdx (vx vy row col : Nat) : Nat :=
  (vx + col) % SCREEN_WIDTH + ((vy + row) % SCREEN_HEIGHT) * SCREEN_WIDTH

/-- Dxyn inner loop (for col in 0..8): bit = (sprite >> (7 - col)) & 1;
XOR it into the framebuffer at drawIdx; record a collision in the running
flag when a set cell becomes unset.  The pair threads (display, flag). -/
def drawCols (sprite vx vy row : Nat) : List Nat → (Nat → Bool) → Nat → (Nat → Bool) × Nat
  | [], d, vf => (d, vf)
  | col :: rest, d, vf =>
      let bit := sprite / 2 ^ (7 - col) % 2
      let idx := drawIdx vx vy row col
      let prev := d idx
      let d' := upd d idx (xor (d idx) (bit == 1))
      let vf' := if prev && !(d' idx) then 1 else vf
      drawCols sprite vx vy row rest d' vf'

/-- Dxyn outer loop (for row in 0..n): fetch the sprite byte at
(i_register + row) (u16 addition, then a bounds-checked usize index) and run
the inner loop over the 8 columns. -/
def drawRows (ram : Ram) (iReg vx vy : Nat) : List Nat → (Nat → Bool) → Nat → Option ((Nat → Bool) × Nat)
  | [], d, vf => some (d, vf)
  | row :: rest, d, vf =>
      match Ram.fetch_byte ram ((iReg + row) % 65536) with
      | none => none
      | some sprite =>
          let p := drawCols sprite vx vy row (List.range 8) d vf
          drawRows ram iReg vx vy rest p.1 p.2

/-- The (framebuffer index, sprite bit) pairs one sprite row contributes, in
column order: the flattened form of the Dxyn inner loop. -/
def rowPairs (sprite vx vy row : Nat) : List (Nat × Nat) :=
  (List.range 8).map (fun col => (drawIdx vx vy row col, sprite / 2 ^ (7 - col) % 2))

/-- One draw step per (index, bit) pair, threading (display, collision flag):
the loop body of Dxyn with the target cell and bit precomputed. -/
def cellSeq : List (Nat × Nat) → (Nat → Bool) → Nat → (Nat → Bool) × Nat
  | [], d, vf => (d, vf)
  | p :: ps, d, vf =>
      cellSeq ps (upd d p.1 (xor (d p.1) (p.2 == 1)))
        (if d p.1 && !(xor (d p.1) (p.2 == 1)) then 1 else vf)

/-- All (index, bit) pairs of a draw, rows in order: the flattened form of
the full Dxyn nested loop. -/
def pairsOf (spriteAt : Nat → Nat) (vx vy : Nat) : List Nat → List (Nat × Nat)
  | [] => []
  | r :: rest => rowPairs (spriteAt r) vx vy r ++ pairsOf spriteAt vx vy rest

/-- Fx0A inner loop: for i in 0..16, first i with keys[i] set. -/
def firstKey (keys : Nat → Bool) : List Nat → Option Nat
  | [] => none
  | i :: rest => if keys i then some i else firstKey keys rest

/-- Fx55 loop: write v_registers[0..=x] to ram at i, i+1, ... (usize adds,
each write bounds-checked). -/
def writeSeq (v : Nat → Nat) (iBase : Nat) : List Nat → Ram → Option Ram
  | [], r => some r
  | idx :: rest, r =>
      match Ram.write_byte r (iBase + idx) (v idx) with
      | none => none
      | some r2 => writeSeq v iBase rest r2

/-- Fx65 loop: read ram[i + idx] into v_registers[idx] for idx in 0..=x. -/
def readSeq (ram : Ram) (iBase : Nat) : List Nat → (Nat → Nat) → Option ((Nat → Nat))
  | [], v => some v
  | idx :: rest, v =>
      match Ram.fetch_byte ram (iBase + idx) with
      | none => none
      | some b => readSeq ram iBase rest (upd v idx b)

/-- lib.rs: body of CPU::execute after the four nibbles have been extracted.
The Rust code matches on the tuple (digit1, digit2, digit3, digit4); the
match is rendered as a first-match chain grouped by digit1, testing exactly
the literal positions of each pattern, in source order within each group.
The final catch-all arm is unimplemented! (a panic), modelled as none. -/
def execOp (c : CPU) (op rand_byte d1 d2 d3 d4 : Nat) : Option CPU :=
  if d1 = 0 then
    -- (0, 0, 0, 0): nop
    if d2 = 0 ∧ d3 = 0 ∧ d4 = 0 then some c
    -- (0, 0, 0xE, 0): clear screen
    else if d2 = 0 ∧ d3 = 14 ∧ d4 = 0 then some { c with screen := c.screen.clear }
    -- (0, 0, 0xE, 0xE): return
    else if d2 = 0 ∧ d3 = 14 ∧ d4 = 14 then
      match c.stack.pop with
      | none => none
      | some (ret_addr, st) => some { c with program_counter := ret_addr, stack := st }
    else none
  else if d1 = 1 then
    -- jump nnn
    some { c with program_counter := op % 4096 }
  else if d1 = 2 then
    -- call nnn: push current (already advanced) program counter, jump
    match c.stack.push c.program_counter with
    | none => none
    | some st => some { c with stack := st, program_counter := op % 4096 }
  else if d1 = 3 then
    -- skip if vx == nn
    some (if c.v_registers d2 = op % 256
          then { c with program_counter := (c.program_counter + 2) % 65536 } else c)
  else if d1 = 4 then
    -- skip if vx != nn
    some (if c.v_registers d2 ≠ op % 256
          then { c with program_counter := (c.program_counter + 2) % 65536 } else c)
  else if d1 = 5 then
    if d4 = 0 then
      -- skip if vx == vy
      some (if c.v_registers d2 = c.v_registers d3
            then { c with program_counter := (c.program_counter + 2) % 65536 } else c)
    else none
  else if d1 = 6 then
    -- vx = nn
    some { c with v_registers := upd c.v_registers d2 (op % 256) }
  else if d1 = 7 then
    -- vx = vx.wrapping_add(nn)
    some { c with v_registers := upd c.v_registers d2 ((c.v_registers d2 + op % 256) % 256) }
  else if d1 = 8 then
    if d4 = 0 then
      some { c with v_registers := upd c.v_registers d2 (c.v_registers d3) }
    else if d4 = 1 then
      some { c with v_registers := upd c.v_registers d2 (c.v_registers d2 ||| c.v_registers d3) }
    else if d4 = 2 then
      some { c with v_registers := upd c.v_registers d2 (c.v_registers d2 &&& c.v_registers d3) }
    else if d4 = 3 then
      some { c with v_registers := upd c.v_registers d2 (c.v_registers d2 ^^^ c.v_registers d3) }
    else if d4 = 4 then
      -- overflowing_add: vx = (vx + vy) mod 256 first, then vf = carry
      some { c with v_registers :=
        (upd (upd c.v_registers d2 ((c.v_registers d2 + c.v_registers d3) % 256)) 15
          (if 255 < c.v_registers d2 + c.v_registers d3 then 1 else 0)) }
    else if d4 = 5 then
      -- overflowing_sub: vx = (vx - vy) mod 256 first, then vf = !borrow
      some { c with v_registers :=
        (upd (upd c.v_registers d2 ((c.v_registers d2 + 256 - c.v_registers d3 % 256) % 256)) 15
          (if c.v_registers d2 < c.v_registers d3 then 0 else 1)) }
    else if d4 = 6 then
      -- vf = vx & 1 first, then vx >>= 1 (reading the updated array)
      some { c with v_registers :=
        (let v1 := upd c.v_registers 15 (c.v_registers d2 % 2)
         upd v1 d2 (v1 d2 / 2)) }
    else if d4 = 7 then
      -- overflowing_sub: vx = (vy - vx) mod 256 first, then vf = !borrow
      some { c with v_registers :=
        (upd (upd c.v_registers d2 ((c.v_registers d3 + 256 - c.v_registers d2 % 256) % 256)) 15
          (if c.v_registers d3 < c.v_registers d2 then 0 else 1)) }
    else if d4 = 14 then
      -- vf = (vx & 0x80) >> 7 first, then vx <<= 1 (reading the updated array)
      some { c with v_registers :=
        (let v1 := upd c.v_registers 15 (c.v_registers d2 / 128 % 2)
         upd v1 d2 (v1 d2 * 2 % 256)) }
    else none
  else if d1 = 9 then
    if d4 = 0 then
      -- skip if vx != vy
      some (if c.v_registers d2 ≠ c.v_registers d3
            then { c with program_counter := (c.program_counter + 2) % 65536 } else c)
    else none
  else if d1 = 10 then
    -- i = nnn
    some { c with i_register := op % 4096 }
  else if d1 = 11 then
    -- jump nnn + v0
    some { c with program_counter := op % 4096 + c.v_registers 0 }
  else if d1 = 12 then
    -- vx = rand_byte & nn
    some { c with v_registers := upd c.v_registers d2 ((rand_byte % 256) &&& op % 256) }
  else if d1 = 13 then
    -- Dxyn: reset vf, then the nested draw loop threading (display, vf)
    let vx := c.v_registers d2
    let vy := c.v_registers d3
    let v1 := upd c.v_registers 15 0
    match drawRows c.ram c.i_register vx vy (List.range d4) c.screen.display 0 with
    | none => none
    | some p => some { c with screen := ⟨p.1⟩, v_registers := upd v1 15 p.2 }
  else if d1 = 14 then
    if d3 = 9 ∧ d4 = 14 then
      -- skip if key vx pressed; keys[vx] panics for vx ≥ 16
      if c.v_registers d2 < NUM_KEYS then
        some (if c.keys (c.v_registers d2)
              then { c with program_counter := (c.program_counter + 2) % 65536 } else c)
      else none
    else if d3 = 10 ∧ d4 = 1 then
      -- skip if key vx not pressed
      if c.v_registers d2 < NUM_KEYS then
        some (if !(c.keys (c.v_registers d2))
              then { c with program_counter := (c.program_counter + 2) % 65536 } else c)
      else none
    else none
  else if d1 = 15 then
    if d3 = 0 ∧ d4 = 7 then
      -- vx = delay timer
      some { c with v_registers := upd c.v_registers d2 c.delay_timer }
    else if d3 = 0 ∧ d4 = 10 then
      -- Fx0A: first pressed key into vx, else rewind pc by 2 (u16 wraparound)
      match firstKey c.keys (List.range NUM_KEYS) with
      | some i => some { c with v_registers := upd c.v_registers d2 i }
      | none => some { c with program_counter := (c.program_counter + 65534) % 65536 }
    else if d3 = 1 ∧ d4 = 5 then
      some { c with delay_timer := c.v_registers d2 }
    else if d3 = 1 ∧ d4 = 8 then
      some { c with sound_timer := c.v_registers d2 }
    else if d3 = 1 ∧ d4 = 14 then
      -- i = i.wrapping_add(vx)
      some { c with i_register := (c.i_register + c.v_registers d2) % 65536 }
    else if d3 = 2 ∧ d4 = 9 then
      -- i = vx * 5, font glyph base
      some { c with i_register := c.v_registers d2 * 5 }
    else if d3 = 3 ∧ d4 = 3 then
      -- BCD of vx at i, i+1, i+2 (u16 address additions)
      let value := c.v_registers d2
      match c.ram.write_byte c.i_register (value / 100) with
      | none => none
      | some r1 =>
        match r1.write_byte ((c.i_register + 1) % 65536) (value / 10 % 10) with
        | none => none
        | some r2 =>
          match r2.write_byte ((c.i_register + 2) % 65536) (value % 10) with
          | none => none
          | some r3 => some { c with ram := r3 }
    else if d3 = 5 ∧ d4 = 5 then
      match writeSeq c.v_registers c.i_register (List.range (d2 + 1)) c.ram with
      | none => none
      | some r => some { c with ram := r }
    else if d3 = 6 ∧ d4 = 5 then
      match readSeq c.ram c.i_register (List.range (d2 + 1)) c.v_registers with
      | none => none
      | some v => some { c with v_registers := v }
    else none
  else none

/-- lib.rs: CPU::execute — extract the four nibbles of op and dispatch.
digit1 = (op & 0xF000) >> 12, digit2 = (op & 0x0F00) >> 8,
digit3 = (op & 0x00F0) >> 4, digit4 = op & 0x000F, written as division and
remainder by powers of two. -/
def CPU.execute (c : CPU) (op rand_byte : Nat) : Option CPU :=
  execOp c op rand_byte (op / 4096 % 16) (op / 256 % 16) (op / 16 % 16) (op % 16)

/-- lib.rs: CPU::tick — fetch (advancing the program counter), then execute. -/
def CPU.tick (c : CPU) (rand_byte : Nat) : Option CPU :=
  match c.fetch with
  | none => none
  | some (ins, c1) => c1.execute ins rand_byte

/-! Concrete machine states used as test fixtures and counterexample inputs. -/

/-- A blank machine: program counter at 0x200, everything else zeroed. -/
def baseCPU : CPU :=
  { program_counter := 0x200
    v_registers := fun _ => 0
    i_register := 0
    stack := ⟨0, fun _ => 0⟩
    ram := ⟨fun _ => 0⟩
    screen := ⟨fun _ => false⟩
    keys := fun _ => false
    delay_timer := 0
    sound_timer := 0 }

/-- Machine with sound_timer = 5, input on which tick_timers should (per the
spec) decrement the sound timer. -/
def timerCPU : CPU := { baseCPU with sound_timer := 5, delay_timer := 5 }

/-- Machine with V0 = 1 and VF = 2: input refuting the unrestricted add-with-
carry claim at opcode 8F04, where Vx is the flag register itself. -/
def cexC5 : CPU :=
  { baseCPU with v_registers := fun i => if i = 0 then 1 else if i = 15 then 2 else 0 }

/-- Machine for the double-draw counterexample: a one-row sprite 0x80 at
I = 0x300, drawn at (V0, V0) = (0, 0); framebuffer cells 0 and 1 already
set. -/
def cexC6 : CPU :=
  { baseCPU with
    i_register := 0x300
    ram := ⟨fun a => if a = 0x300 then 0x80 else 0⟩
    screen := ⟨fun i => i == 0 || i == 1⟩ }

/-- Machine whose current instruction (at 0x200) is F00A: wait for key into
V0; no key pressed. -/
def waitCPU : CPU :=
  { baseCPU with ram := ⟨fun a => if a = 0x200 then 0xF0 else if a = 0x201 then 0x0A else 0⟩ }

/-- Same machine with key 3 pressed. -/
def waitPressedCPU : CPU := { waitCPU with keys := fun i => i == 3 }

/-- Machine with V0 = 200 and V1 = 100: add-with-carry witness input. -/
def addCPU : CPU :=
  { baseCPU with v_registers := fun i => if i = 0 then 200 else if i = 1 then 100 else 0 }

/-! Claim theorems. -/

/-- C1: the claim says tick_timers decrements BOTH timers symmetrically.  The
code only touches delay_timer: for every state the sound timer is left
exactly as it was (here evaluated next to the delay timer, which does
decrement), so a state with sound_timer = 5 keeps sound_timer = 5 where the
claim requires 4. -/
theorem claim_C1 (c : CPU) :
    c.tick_timers.sound_timer = c.sound_timer ∧
    c.tick_timers.delay_timer = (if 0 < c.delay_timer then c.delay_timer - 1 else c.delay_timer) ∧
    timerCPU.tick_timers.sound_timer = 5 := by
  unfold CPU.tick_timers
  refine ⟨?_, ?_, rfl⟩ <;> split <;> rfl

/-- C2: stack overflow, stack underflow and an unrecognized opcode are all
modelled as none — the operation produces no successor state, because the
Rust code panics (an out-of-bounds array write, a u16 underflow followed by
an out-of-bounds read, the unimplemented! macro).  No error value is ever
returned to the host: the claim's required catchable error channel does not
exist in the code. -/
theorem claim_C2 :
    Stack.push ⟨16, fun _ => 0⟩ 0x202 = none ∧
    Stack.pop ⟨0, fun _ => 0⟩ = none ∧
    baseCPU.execute 0x5121 0 = none :=
  ⟨rfl, rfl, rfl⟩

/-- C9: keypress is bounds-checked.  For idx < 16 it sets exactly key idx and
changes no other component of the state; for idx ≥ 16 the indexing is
detected out of bounds (modelled none) and no write happens. -/
theorem claim_C9 (c : CPU) (idx : Nat) (pressed : Bool) :
    (idx < 16 →
      ∃ c', c.keypress idx pressed = some c' ∧
        c'.keys idx = pressed ∧
        (∀ j, j ≠ idx → c'.keys j = c.keys j) ∧
        c'.program_counter = c.program_counter ∧
        c'.v_registers = c.v_registers ∧
        c'.i_register = c.i_register ∧
        c'.stack = c.stack ∧
        c'.ram = c.ram ∧
        c'.screen = c.screen ∧
        c'.delay_timer = c.delay_timer ∧
        c'.sound_timer = c.sound_timer) ∧
    (16 ≤ idx → c.keypress idx pressed = none) := by
  constructor
  · intro h
    refine ⟨{ c with keys := upd c.keys idx pressed }, ?_, ?_, ?_, rfl, rfl, rfl, rfl, rfl, rfl, rfl, rfl⟩
    · unfold CPU.keypress NUM_KEYS
      rw [if_pos h]
    · simp [upd]
    · intro j hj
      simp [upd, hj]
  · intro h
    unfold CPU.keypress NUM_KEYS
    rw [if_neg (by omega)]

/-- C9 witness: keypress 3 sets key 3 on the blank machine and keypress 16 is
rejected. -/
theorem claim_C9_witness :
    (∃ c', baseCPU.keypress 3 true = some c' ∧
        c'.keys 3 = true ∧
        (∀ j, j ≠ 3 → c'.keys j = baseCPU.keys j) ∧
        c'.program_counter = baseCPU.program_counter ∧
        c'.v_registers = baseCPU.v_registers ∧
        c'.i_register = baseCPU.i_register ∧
        c'.stack = baseCPU.stack ∧
        c'.ram = baseCPU.ram ∧
        c'.screen = baseCPU.screen ∧
        c'.delay_timer = baseCPU.delay_timer ∧
        c'.sound_timer = baseCPU.sound_timer) ∧
    baseCPU.keypress 16 true = none :=
  ⟨(claim_C9 baseCPU 3 true).1 (by omega), (claim_C9 baseCPU 16 true).2 (by omega)⟩

/-- C8: for data fitting below the top of RAM, load copies data byte-for-byte
to 0x200.., leaves every address below 0x200 (the font region included) and
every address past the copied range unchanged; for oversized data the slice
bounds check fails before any byte is written (none — a fatal error, never a
truncated copy). -/
theorem claim_C8 (r : Ram) (data : List Nat) :
    (data.length ≤ RAM_SIZE - START_ADDR →
      ∃ r', r.load data = some r' ∧
        (∀ k, k < data.length → r'.data (START_ADDR + k) = data.getD k 0) ∧
        (∀ a, a < START_ADDR → r'.data a = r.data a) ∧
        (∀ a, START_ADDR + data.length ≤ a → r'.data a = r.data a)) ∧
    (RAM_SIZE - START_ADDR < data.length → r.load data = none) := by
  constructor
  · intro h
    refine ⟨⟨fun a =>
        if START_ADDR ≤ a ∧ a < START_ADDR + data.length then data.getD (a - START_ADDR) 0
        else r.data a⟩, ?_, ?_, ?_, ?_⟩
    · unfold Ram.load
      rw [if_pos (by unfold RAM_SIZE START_ADDR at *; omega)]
    · intro k hk
      show (if START_ADDR ≤ START_ADDR + k ∧ START_ADDR + k < START_ADDR + data.length
            then data.getD (START_ADDR + k - START_ADDR) 0 else r.data (START_ADDR + k)) = _
      rw [if_pos (by omega)]
      have he : START_ADDR + k - START_ADDR = k := by omega
      rw [he]
    · intro a ha
      show (if START_ADDR ≤ a ∧ a < START_ADDR + data.length
            then data.getD (a - START_ADDR) 0 else r.data a) = _
      rw [if_neg (by omega)]
    · intro a ha
      show (if START_ADDR ≤ a ∧ a < START_ADDR + data.length
            then data.getD (a - START_ADDR) 0 else r.data a) = _
      rw [if_neg (by omega)]
  · intro h
    unfold Ram.load
    rw [if_neg (by unfold RAM_SIZE START_ADDR at *; omega)]

/-- C8 witness: loading [1, 2, 3] into a RAM holding 7 everywhere places the
bytes at 0x200..0x202 and leaves 0x1FF and 0x203 alone; loading 3585 bytes is
rejected. -/
theorem claim_C8_witness :
    (∃ r', Ram.load ⟨fun _ => 7⟩ [1, 2, 3] = some r' ∧
        (∀ k, k < ([1, 2, 3] : List Nat).length → r'.data (START_ADDR + k) = [1, 2, 3].getD k 0) ∧
        (∀ a, a < START_ADDR → r'.data a = (⟨fun _ => 7⟩ : Ram).data a) ∧
        (∀ a, START_ADDR + ([1, 2, 3] : List Nat).length ≤ a →
          r'.data a = (⟨fun _ => 7⟩ : Ram).data a)) ∧
    Ram.load ⟨fun _ => 7⟩ (List.replicate 3585 0) = none :=
  ⟨(claim_C8 ⟨fun _ => 7⟩ [1, 2, 3]).1 (by decide),
   (claim_C8 ⟨fun _ => 7⟩ (List.replicate 3585 0)).2
     (by simp only [List.length_replicate]; decide)⟩

/-! Reduction lemmas: executing one opcode of a given family on a symbolic
state equals the corresponding arm body. -/

/-- Opcode 8xy4 (add with carry). -/
theorem exec_8xy4_eq (c : CPU) (rb x y : Nat) (hx : x < 16) (hy : y < 16) :
    c.execute (0x8004 + 256 * x + 16 * y) rb =
      some { c with v_registers :=
        (upd (upd c.v_registers x ((c.v_registers x + c.v_registers y) % 256)) 15
          (if 255 < c.v_registers x + c.v_registers y then 1 else 0)) } := by
  have h1 : (0x8004 + 256 * x + 16 * y) / 4096 % 16 = 8 := by omega
  have h2 : (0x8004 + 256 * x + 16 * y) / 256 % 16 = x := by omega
  have h3 : (0x8004 + 256 * x + 16 * y) / 16 % 16 = y := by omega
  have h4 : (0x8004 + 256 * x + 16 * y) % 16 = 4 := by omega
  rw [CPU.execute, h1, h2, h3, h4]
  simp [execOp]

/-- Opcode 8xy6 (shift right, flag written before the shift). -/
theorem exec_8xy6_eq (c : CPU) (rb x y : Nat) (hx : x < 16) (hy : y < 16) :
    c.execute (0x8006 + 256 * x + 16 * y) rb =
      some { c with v_registers :=
        (let v1 := upd c.v_registers 15 (c.v_registers x % 2)
         upd v1 x (v1 x / 2)) } := by
  have h1 : (0x8006 + 256 * x + 16 * y) / 4096 % 16 = 8 := by omega
  have h2 : (0x8006 + 256 * x + 16 * y) / 256 % 16 = x := by omega
  have h3 : (0x8006 + 256 * x + 16 * y) / 16 % 16 = y := by omega
  have h4 : (0x8006 + 256 * x + 16 * y) % 16 = 6 := by omega
  rw [CPU.execute, h1, h2, h3, h4]
  simp [execOp]

/-- Opcode 8xyE (shift left, flag written before the shift). -/
theorem exec_8xyE_eq (c : CPU) (rb x y : Nat) (hx : x < 16) (hy : y < 16) :
    c.execute (0x800E + 256 * x + 16 * y) rb =
      some { c with v_registers :=
        (let v1 := upd c.v_registers 15 (c.v_registers x / 128 % 2)
         upd v1 x (v1 x * 2 % 256)) } := by
  have h1 : (0x800E + 256 * x + 16 * y) / 4096 % 16 = 8 := by omega
  have h2 : (0x800E + 256 * x + 16 * y) / 256 % 16 = x := by omega
  have h3 : (0x800E + 256 * x + 16 * y) / 16 % 16 = y := by omega
  have h4 : (0x800E + 256 * x + 16 * y) % 16 = 14 := by omega
  rw [CPU.execute, h1, h2, h3, h4]
  simp [execOp]

/-- C10: when the shift opcodes target VF itself, the flag write happens
first and the shift then acts on the freshly written flag: 8F06 always
leaves VF = 0, and 8FyE leaves VF = twice the pre-shift most significant
bit of VF (0 or 2). -/
theorem claim_C10 (c : CPU) (rb y : Nat) (hy : y < 16) :
    (∃ c', c.execute (0x8F06 + 16 * y) rb = some c' ∧ c'.v_registers 15 = 0) ∧
    (∃ c', c.execute (0x8F0E + 16 * y) rb = some c' ∧
      c'.v_registers 15 = 2 * (c.v_registers 15 / 128 % 2)) := by
  constructor
  · have hop : (0x8F06 + 16 * y : Nat) = 0x8006 + 256 * 15 + 16 * y := by norm_num
    rw [hop, exec_8xy6_eq c rb 15 y (by omega) hy]
    refine ⟨_, rfl, ?_⟩
    simp [upd]
  · have hop : (0x8F0E + 16 * y : Nat) = 0x800E + 256 * 15 + 16 * y := by norm_num
    rw [hop, exec_8xyE_eq c rb 15 y (by omega) hy]
    refine ⟨_, rfl, ?_⟩
    simp [upd]
    omega

/-- C10 witness: concrete machine with VF = 200 (msb 1): 8F06 gives VF = 0,
8F0E gives VF = 2. -/
theorem claim_C10_witness :
    (∃ c', (({ baseCPU with v_registers := fun i => if i = 15 then 200 else 0 } : CPU).execute
        (0x8F06 + 16 * 0) 0) = some c' ∧ c'.v_registers 15 = 0) ∧
    (∃ c', (({ baseCPU with v_registers := fun i => if i = 15 then 200 else 0 } : CPU).execute
        (0x8F0E + 16 * 0) 0) = some c' ∧
      c'.v_registers 15 = 2 * (({ baseCPU with v_registers := fun i => if i = 15 then 200 else 0 } : CPU).v_registers 15 / 128 % 2)) :=
  claim_C10 { baseCPU with v_registers := fun i => if i = 15 then 200 else 0 } 0 0 (by omega)

/-- C5 counterexample: at 8F04 (x = 0xF) with VF = 2, V0 = 1 the stored
value in Vx is the carry flag 0, not (2 + 1) mod 256 = 3: the unrestricted
claim fails when Vx is the flag register. -/
theorem claim_C5_counterexample :
    (cexC5.execute 0x8F04 0).map (fun s => s.v_registers 15) = some 0 ∧
    (cexC5.v_registers 15 + cexC5.v_registers 0) % 256 = 3 :=
  ⟨rfl, rfl⟩

/-- C5 (amended: x ≠ 0xF): 8xy4 stores (Vx + Vy) mod 256 into Vx and sets
VF to 1 iff the unsigned sum exceeds 255, else 0. -/
theorem claim_C5 (c : CPU) (rb x y : Nat) (hx : x < 16) (hx15 : x ≠ 15) (hy : y < 16)
    (ha : c.v_registers x < 256) (hb : c.v_registers y < 256) :
    ∃ c', c.execute (0x8004 + 256 * x + 16 * y) rb = some c' ∧
      c'.v_registers x = (c.v_registers x + c.v_registers y) % 256 ∧
      (c'.v_registers 15 = 1 ↔ 255 < c.v_registers x + c.v_registers y) ∧
      (c'.v_registers 15 = 0 ↔ c.v_registers x + c.v_registers y ≤ 255) := by
  rw [exec_8xy4_eq c rb x y hx hy]
  refine ⟨_, rfl, ?_, ?_, ?_⟩
  · simp [upd, hx15]
  · show (if 255 < c.v_registers x + c.v_registers y then 1 else 0) = 1 ↔
      255 < c.v_registers x + c.v_registers y
    split
    · exact iff_of_true rfl (by assumption)
    · exact iff_of_false (by omega) (by assumption)
  · show (if 255 < c.v_registers x + c.v_registers y then 1 else 0) = 0 ↔
      c.v_registers x + c.v_registers y ≤ 255
    split
    · exact iff_of_false (by omega) (by omega)
    · exact iff_of_true rfl (by omega)

/-- C5 witness: V0 = 200, V1 = 100: result 44 with carry 1. -/
theorem claim_C5_witness :
    ∃ c', addCPU.execute (0x8004 + 256 * 0 + 16 * 1) 0 = some c' ∧
      c'.v_registers 0 = (addCPU.v_registers 0 + addCPU.v_registers 1) % 256 ∧
      (c'.v_registers 15 = 1 ↔ 255 < addCPU.v_registers 0 + addCPU.v_registers 1) ∧
      (c'.v_registers 15 = 0 ↔ addCPU.v_registers 0 + addCPU.v_registers 1 ≤ 255) :=
  claim_C5 addCPU 0 0 1 (by omega) (by omega) (by omega) (by decide) (by decide)

/-- Opcode 2nnn (call). -/
theorem exec_call_eq (c : CPU) (rb nnn : Nat) (hsp : c.stack.stack_point < 16)
    (hnnn : nnn < 4096) :
    c.execute (0x2000 + nnn) rb =
      some { c with
        stack := ⟨c.stack.stack_point + 1, upd c.stack.stack c.stack.stack_point c.program_counter⟩
        program_counter := nnn } := by
  have h1 : (0x2000 + nnn) / 4096 % 16 = 2 := by omega
  rw [CPU.execute, h1]
  have hmod : (0x2000 + nnn) % 4096 = nnn := by omega
  simp only [execOp]
  norm_num
  unfold Stack.push STACK_SIZE
  rw [if_pos hsp, hmod]

/-- Opcode 00EE (return). -/
theorem exec_ret_eq (c : CPU) (rb : Nat) (hsp : c.stack.stack_point ≠ 0)
    (hsp16 : c.stack.stack_point - 1 < 16) :
    c.execute 0x00EE rb =
      some { c with
        program_counter := c.stack.stack (c.stack.stack_point - 1)
        stack := ⟨c.stack.stack_point - 1, c.stack.stack⟩ } := by
  rw [CPU.execute]
  norm_num
  simp only [execOp]
  norm_num
  unfold Stack.pop STACK_SIZE
  rw [if_neg hsp, if_pos hsp16]

/-- C7: a 2nnn call followed by 00EE restores the program counter to its
post-fetch value at the call and the stack depth to its pre-call value. -/
theorem claim_C7 (c : CPU) (rb1 rb2 nnn : Nat) (hsp : c.stack.stack_point < 16)
    (hnnn : nnn < 4096) :
    ∃ c1 c2, c.execute (0x2000 + nnn) rb1 = some c1 ∧
      c1.execute 0x00EE rb2 = some c2 ∧
      c1.program_counter = nnn ∧
      c2.program_counter = c.program_counter ∧
      c2.stack.stack_point = c.stack.stack_point := by
  rw [exec_call_eq c rb1 nnn hsp hnnn]
  have hret := exec_ret_eq
    { c with
      stack := ⟨c.stack.stack_point + 1, upd c.stack.stack c.stack.stack_point c.program_counter⟩
      program_counter := nnn } rb2
    (by show c.stack.stack_point + 1 ≠ 0; omega)
    (by show c.stack.stack_point + 1 - 1 < 16; omega)
  refine ⟨_, _, rfl, hret, rfl, ?_, ?_⟩
  · simp [upd]
  · simp

/-- C7 witness: a call to 0x300 from the blank machine and a return. -/
theorem claim_C7_witness :
    ∃ c1 c2, baseCPU.execute (0x2000 + 0x300) 0 = some c1 ∧
      c1.execute 0x00EE 0 = some c2 ∧
      c1.program_counter = 0x300 ∧
      c2.program_counter = baseCPU.program_counter ∧
      c2.stack.stack_point = baseCPU.stack.stack_point :=
  claim_C7 baseCPU 0 0 0x300 (by decide) (by decide)

/-- The Fx0A scan returns none when no listed key is pressed. -/
theorem firstKey_none (keys : Nat → Bool) (l : List Nat) (h : ∀ i ∈ l, keys i = false) :
    firstKey keys l = none := by
  induction l with
  | nil => rfl
  | cons a t ih =>
    have ha := h a (by simp)
    have ht : ∀ i ∈ t, keys i = false := fun i hi => h i (by simp [hi])
    simp [firstKey, ha, ih ht]

/-- A hit in the first part of a scan list decides the scan. -/
theorem firstKey_append_some (keys : Nat → Bool) (l1 l2 : List Nat) (j : Nat)
    (h : firstKey keys l1 = some j) : firstKey keys (l1 ++ l2) = some j := by
  induction l1 with
  | nil => exact absurd h (by simp [firstKey])
  | cons a t ih =>
    by_cases ha : keys a
    · simpa [firstKey, ha] using h
    · rw [List.cons_append]
      unfold firstKey at h ⊢
      rw [if_neg (by simp [ha])] at h ⊢
      exact ih h

/-- A miss in the first part of a scan list defers to the second. -/
theorem firstKey_append_none (keys : Nat → Bool) (l1 l2 : List Nat)
    (h : firstKey keys l1 = none) : firstKey keys (l1 ++ l2) = firstKey keys l2 := by
  induction l1 with
  | nil => rfl
  | cons a t ih =>
    by_cases ha : keys a
    · simp [firstKey, ha] at h
    · rw [List.cons_append]
      have h' : firstKey keys t = none := by
        unfold firstKey at h
        rwa [if_neg (by simp [ha])] at h
      show (if keys a = true then some a else firstKey keys (t ++ l2)) = firstKey keys l2
      rw [if_neg (by simp [ha])]
      exact ih h'

/-- Scanning 0..n in index order finds the smallest pressed key. -/
theorem firstKey_range (keys : Nat → Bool) (n j : Nat) (hj : j < n) (hkey : keys j = true)
    (hmin : ∀ k, k < j → keys k = false) : firstKey keys (List.range n) = some j := by
  induction n with
  | zero => omega
  | succ m ih =>
    rw [List.range_succ]
    by_cases hjm : j < m
    · exact firstKey_append_some _ _ _ _ (ih hjm)
    · have hje : j = m := by omega
      rw [firstKey_append_none _ _ _
        (firstKey_none _ _ (fun i hi => hmin i (by rw [hje]; simpa using hi)))]
      rw [← hje]
      simp [firstKey, hkey]

/-- Opcode Fx0A (wait for key). -/
theorem exec_Fx0A_eq (c : CPU) (rb x : Nat) (hx : x < 16) :
    c.execute (0xF00A + 256 * x) rb =
      (match firstKey c.keys (List.range NUM_KEYS) with
       | some i => some { c with v_registers := upd c.v_registers x i }
       | none => some { c with program_counter := (c.program_counter + 65534) % 65536 }) := by
  have h1 : (0xF00A + 256 * x) / 4096 % 16 = 15 := by omega
  have h2 : (0xF00A + 256 * x) / 256 % 16 = x := by omega
  have h3 : (0xF00A + 256 * x) / 16 % 16 = 0 := by omega
  have h4 : (0xF00A + 256 * x) % 16 = 10 := by omega
  rw [CPU.execute, h1, h2, h3, h4]
  simp [execOp]

/-- C4: with the current instruction Fx0A, a tick with no key pressed leaves
the program counter unchanged (the instruction will re-execute) and writes no
register; a tick with pressed keys stores the smallest pressed index into Vx
and advances the program counter by 2. -/
theorem claim_C4 (c : CPU) (rb x : Nat) (hx : x < 16)
    (hfetch : c.ram.fetch_instruction c.program_counter = some (0xF00A + 256 * x)) :
    ((∀ i, i < 16 → c.keys i = false) →
      ∃ c', c.tick rb = some c' ∧ c'.program_counter = c.program_counter ∧
        c'.v_registers = c.v_registers) ∧
    (∀ j, j < 16 → c.keys j = true → (∀ k, k < j → c.keys k = false) →
      ∃ c', c.tick rb = some c' ∧ c'.program_counter = c.program_counter + 2 ∧
        c'.v_registers x = j) := by
  have hpc : c.program_counter + 1 < 4096 := by
    by_contra hcon
    unfold Ram.fetch_instruction RAM_SIZE at hfetch
    rw [if_neg (by omega)] at hfetch
    exact Option.noConfusion hfetch
  have htick : c.tick rb =
      CPU.execute { c with program_counter := (c.program_counter + 2) % 65536 }
        (0xF00A + 256 * x) rb := by
    unfold CPU.tick CPU.fetch
    rw [hfetch]
    rfl
  have hpc2 : (c.program_counter + 2) % 65536 = c.program_counter + 2 := by omega
  rw [hpc2] at htick
  rw [exec_Fx0A_eq _ rb x hx] at htick
  constructor
  · intro hnone
    rw [firstKey_none c.keys (List.range NUM_KEYS)
      (fun i hi => hnone i (by simpa [NUM_KEYS] using hi))] at htick
    refine ⟨_, htick, ?_, rfl⟩
    show (c.program_counter + 2 + 65534) % 65536 = c.program_counter
    omega
  · intro j hj hkey hmin
    rw [firstKey_range c.keys NUM_KEYS j hj hkey hmin] at htick
    refine ⟨_, htick, rfl, ?_⟩
    show upd c.v_registers x j x = j
    simp [upd]

/-- C4 witness: machine with F00A at 0x200: no key pressed leaves the program
counter at 0x200; with key 3 pressed one tick stores 3 in V0 and advances to
0x202. -/
theorem claim_C4_witness :
    (∃ c', waitCPU.tick 0 = some c' ∧ c'.program_counter = waitCPU.program_counter ∧
      c'.v_registers = waitCPU.v_registers) ∧
    (∃ c', waitPressedCPU.tick 0 = some c' ∧
      c'.program_counter = waitPressedCPU.program_counter + 2 ∧
      c'.v_registers 0 = 3) :=
  ⟨(claim_C4 waitCPU 0 0 (by decide) (by rfl)).1 (by decide),
   (claim_C4 waitPressedCPU 0 0 (by decide) (by rfl)).2 3 (by decide) (by rfl) (by decide)⟩

/-! Draw-loop lemmas. -/

/-- Writing a cell and reading it back. -/
theorem upd_same {α : Type} (f : Nat → α) (i : Nat) (a : α) : upd f i a i = a := by
  simp [upd]

/-- Writing a cell leaves the others. -/
theorem upd_ne {α : Type} (f : Nat → α) (i j : Nat) (a : α) (h : j ≠ i) : upd f i a j = f j := by
  simp [upd, h]

/-- The Dxyn inner loop equals the flat per-pair loop on the row's pairs. -/
theorem drawCols_eq_cellSeq (sprite vx vy row : Nat) (cols : List Nat) (d : Nat → Bool)
    (vf : Nat) :
    drawCols sprite vx vy row cols d vf =
      cellSeq (cols.map fun col => (drawIdx vx vy row col, sprite / 2 ^ (7 - col) % 2)) d vf := by
  induction cols generalizing d vf with
  | nil => rfl
  | cons a t ih =>
    simp only [List.map_cons, drawCols, cellSeq, upd_same]
    exact ih _ _

/-- Processing a concatenation of pair lists is sequential composition. -/
theorem cellSeq_append (l1 l2 : List (Nat × Nat)) (d : Nat → Bool) (vf : Nat) :
    cellSeq (l1 ++ l2) d vf = cellSeq l2 (cellSeq l1 d vf).1 (cellSeq l1 d vf).2 := by
  induction l1 generalizing d vf with
  | nil => rfl
  | cons p ps ih =>
    simp only [List.cons_append, cellSeq]
    exact ih _ _

/-- The Dxyn nested loop equals the flat per-pair loop on all pairs, when
every sprite byte fetch is in bounds. -/
theorem drawRows_eq (ram : Ram) (iReg vx vy : Nat) (rows : List Nat) (d : Nat → Bool) (vf : Nat)
    (h : ∀ r ∈ rows, iReg + r < RAM_SIZE) :
    drawRows ram iReg vx vy rows d vf =
      some (cellSeq (pairsOf (fun r => ram.data (iReg + r)) vx vy rows) d vf) := by
  induction rows generalizing d vf with
  | nil => rfl
  | cons r rest ih =>
    have hb : iReg + r < RAM_SIZE := h r (by simp)
    have hfetch : Ram.fetch_byte ram ((iReg + r) % 65536) = some (ram.data (iReg + r)) := by
      unfold Ram.fetch_byte
      rw [Nat.mod_eq_of_lt (by unfold RAM_SIZE at hb; omega)]
      rw [if_pos hb]
    simp only [drawRows, hfetch]
    rw [drawCols_eq_cellSeq]
    rw [ih _ _ (fun r' hr' => h r' (by simp [hr']))]
    simp only [pairsOf, rowPairs, cellSeq_append]

/-- Cells no pair targets are unchanged by the flat loop. -/
theorem cellSeq_display_not_mem (ps : List (Nat × Nat)) (d : Nat → Bool) (vf i : Nat)
    (h : ∀ q ∈ ps, q.1 ≠ i) : (cellSeq ps d vf).1 i = d i := by
  induction ps generalizing d vf with
  | nil => rfl
  | cons p ps ih =>
    have hp : p.1 ≠ i := h p (by simp)
    simp only [cellSeq]
    rw [ih _ _ (fun q hq => h q (by simp [hq]))]
    exact upd_ne _ _ _ _ (Ne.symm hp)

/-- A cell targeted by exactly one pair ends as its XOR with that bit. -/
theorem cellSeq_display_mem (ps : List (Nat × Nat)) (d : Nat → Bool) (vf i b : Nat)
    (hnd : List.Pairwise (fun p q => p.1 ≠ q.1) ps) (hmem : (i, b) ∈ ps) :
    (cellSeq ps d vf).1 i = xor (d i) (b == 1) := by
  induction ps generalizing d vf with
  | nil => simp at hmem
  | cons p ps ih =>
    rw [List.pairwise_cons] at hnd
    simp only [cellSeq]
    rcases List.mem_cons.mp hmem with heq | hmem'
    · rw [cellSeq_display_not_mem]
      · rw [← heq]
        exact upd_same _ _ _
      · intro q hq
        have hne := hnd.1 q hq
        rw [← heq] at hne
        exact Ne.symm hne
    · have hp1 : p.1 ≠ i := hnd.1 (i, b) hmem'
      rw [ih _ _ hnd.2 hmem', upd_ne _ _ _ _ (Ne.symm hp1)]

/-- The collision flag after the flat loop: 1 exactly when some pair has a
set bit over an initially set cell (the running flag starting at vf). -/
theorem cellSeq_vf (ps : List (Nat × Nat)) (d : Nat → Bool) (vf : Nat)
    (hnd : List.Pairwise (fun p q => p.1 ≠ q.1) ps) :
    (cellSeq ps d vf).2 = if ∃ q ∈ ps, q.2 = 1 ∧ d q.1 = true then 1 else vf := by
  induction ps generalizing d vf with
  | nil => simp [cellSeq]
  | cons p ps ih =>
    rw [List.pairwise_cons] at hnd
    simp only [cellSeq]
    rw [ih _ _ hnd.2]
    have hd' : ∀ q ∈ ps, (upd d p.1 (xor (d p.1) (p.2 == 1))) q.1 = d q.1 := fun q hq =>
      upd_ne _ _ _ _ (Ne.symm (hnd.1 q hq))
    have hcond : (∃ q ∈ ps, q.2 = 1 ∧ (upd d p.1 (xor (d p.1) (p.2 == 1))) q.1 = true) ↔
        (∃ q ∈ ps, q.2 = 1 ∧ d q.1 = true) := by
      constructor
      · rintro ⟨q, hq, h1, h2⟩
        exact ⟨q, hq, h1, by rwa [hd' q hq] at h2⟩
      · rintro ⟨q, hq, h1, h2⟩
        exact ⟨q, hq, h1, by rw [hd' q hq]; exact h2⟩
    rw [if_congr hcond rfl rfl]
    have hboolstep : (d p.1 && !(xor (d p.1) (p.2 == 1))) = ((p.2 == 1) && d p.1) := by
      cases d p.1 <;> cases p.2 == 1 <;> rfl
    rw [hboolstep]
    by_cases h1 : ∃ q ∈ ps, q.2 = 1 ∧ d q.1 = true
    · rcases h1 with ⟨q, hq, hh⟩
      rw [if_pos ⟨q, hq, hh⟩, if_pos ⟨q, List.mem_cons_of_mem p hq, hh⟩]
    · rw [if_neg h1]
      by_cases h2 : p.2 = 1 ∧ d p.1 = true
      · have hb : ((p.2 == 1) && d p.1) = true := by simp [h2.1, h2.2]
        rw [if_pos hb, if_pos ⟨p, List.mem_cons_self p ps, h2⟩]
      · have hb : ¬((p.2 == 1) && d p.1) = true := by
          intro hcon
          rw [Bool.and_eq_true, beq_iff_eq] at hcon
          exact h2 ⟨hcon.1, hcon.2⟩
        rw [if_neg hb, if_neg ?_]
        rintro ⟨q, hq, hh⟩
        rcases List.mem_cons.mp hq with heq | hmem'
        · exact h2 (heq ▸ hh)
        · exact h1 ⟨q, hmem', hh⟩

/-- Membership in one row's pair list. -/
theorem mem_rowPairs (sprite vx vy row : Nat) (q : Nat × Nat) :
    q ∈ rowPairs sprite vx vy row ↔
      ∃ col, col < 8 ∧ (drawIdx vx vy row col, sprite / 2 ^ (7 - col) % 2) = q := by
  simp [rowPairs]

/-- Membership in the full draw pair list. -/
theorem mem_pairsOf (f : Nat → Nat) (vx vy : Nat) (rows : List Nat) (q : Nat × Nat) :
    q ∈ pairsOf f vx vy rows ↔ ∃ r ∈ rows, q ∈ rowPairs (f r) vx vy r := by
  induction rows with
  | nil => simp [pairsOf]
  | cons r rest ih =>
    simp only [pairsOf, List.mem_append, ih, List.mem_cons]
    constructor
    · rintro (hq | ⟨r', hr', hq⟩)
      · exact ⟨r, Or.inl rfl, hq⟩
      · exact ⟨r', Or.inr hr', hq⟩
    · rintro ⟨r', hr' | hr', hq⟩
      · exact Or.inl (hr' ▸ hq)
      · exact Or.inr ⟨r', hr', hq⟩

/-- Distinct columns of one row target distinct framebuffer cells. -/
theorem drawIdx_col_inj (vx vy row c c' : Nat) (hc : c < 8) (hc' : c' < 8)
    (h : drawIdx vx vy row c = drawIdx vx vy row c') : c = c' := by
  unfold drawIdx SCREEN_WIDTH SCREEN_HEIGHT at h
  omega

/-- Distinct (row, column) pairs target distinct cells when rows stay below
the screen height and columns below 8. -/
theorem drawIdx_inj (vx vy r c r' c' : Nat) (hr : r < 32) (hr' : r' < 32) (hc : c < 8)
    (hc' : c' < 8) (h : drawIdx vx vy r c = drawIdx vx vy r' c') : r = r' ∧ c = c' := by
  unfold drawIdx SCREEN_WIDTH SCREEN_HEIGHT at h
  omega

/-- The pairs of one row have pairwise distinct target cells. -/
theorem pairwise_rowPairs (sprite vx vy row : Nat) :
    List.Pairwise (fun p q => p.1 ≠ q.1) (rowPairs sprite vx vy row) := by
  unfold rowPairs
  rw [List.pairwise_map]
  have hlt : List.Pairwise (· < ·) (List.range 8) := List.pairwise_lt_range 8
  exact hlt.imp_of_mem (fun ha hb hab => by
    intro hcon
    have := drawIdx_col_inj vx vy row _ _ (List.mem_range.mp ha) (List.mem_range.mp hb) hcon
    omega)

/-- All pairs of a draw over distinct in-range rows have pairwise distinct
target cells. -/
theorem pairwise_pairsOf (f : Nat → Nat) (vx vy : Nat) (rows : List Nat)
    (hrows : List.Pairwise (· ≠ ·) rows) (hbound : ∀ r ∈ rows, r < 32) :
    List.Pairwise (fun p q => p.1 ≠ q.1) (pairsOf f vx vy rows) := by
  induction rows with
  | nil => exact List.Pairwise.nil
  | cons r rest ih =>
    rw [List.pairwise_cons] at hrows
    unfold pairsOf
    rw [List.pairwise_append]
    refine ⟨pairwise_rowPairs _ _ _ _,
      ih hrows.2 (fun r' hr' => hbound r' (by simp [hr'])), ?_⟩
    intro a ha b hb
    rcases (mem_rowPairs _ _ _ _ a).mp ha with ⟨ca, hca, hea⟩
    rcases (mem_pairsOf _ _ _ _ b).mp hb with ⟨r', hr', hbr⟩
    rcases (mem_rowPairs _ _ _ _ b).mp hbr with ⟨cb, hcb, heb⟩
    rw [← hea, ← heb]
    intro hcon
    have hr32 : r < 32 := hbound r (by simp)
    have hr'32 : r' < 32 := hbound r' (by simp [hr'])
    have hinj := drawIdx_inj vx vy r ca r' cb hr32 hr'32 hca hcb hcon
    exact absurd hinj.1 (hrows.1 r' hr')

/-- Opcode Dxyn (draw) for in-bounds sprite addresses: the result is the flat
per-pair loop over all (cell, bit) pairs, with the flag accumulated from 0. -/
theorem exec_Dxyn_eq (c : CPU) (rb x y n : Nat) (hx : x < 16) (hy : y < 16) (hn : n < 16)
    (hI : c.i_register + n ≤ RAM_SIZE) :
    c.execute (0xD000 + 256 * x + 16 * y + n) rb =
      some { c with
        screen := ⟨(cellSeq (pairsOf (fun r => c.ram.data (c.i_register + r))
          (c.v_registers x) (c.v_registers y) (List.range n)) c.screen.display 0).1⟩
        v_registers := (upd (upd c.v_registers 15 0) 15
          (cellSeq (pairsOf (fun r => c.ram.data (c.i_register + r))
            (c.v_registers x) (c.v_registers y) (List.range n)) c.screen.display 0).2) } := by
  have h1 : (0xD000 + 256 * x + 16 * y + n) / 4096 % 16 = 13 := by omega
  have h2 : (0xD000 + 256 * x + 16 * y + n) / 256 % 16 = x := by omega
  have h3 : (0xD000 + 256 * x + 16 * y + n) / 16 % 16 = y := by omega
  have h4 : (0xD000 + 256 * x + 16 * y + n) % 16 = n := by omega
  rw [CPU.execute, h1, h2, h3, h4]
  have hrows : ∀ r ∈ List.range n, c.i_register + r < RAM_SIZE := by
    intro r hr
    have := List.mem_range.mp hr
    unfold RAM_SIZE at *
    omega
  simp only [execOp]
  norm_num
  rw [drawRows_eq _ _ _ _ _ _ _ hrows]

/-- XOR with the same bit twice restores a cell. -/
theorem bool_xor_xor (a bb : Bool) : xor (xor a bb) bb = a := by
  cases a <;> cases bb <;> rfl

/-- Running the flat loop twice with the same pairs restores every cell. -/
theorem cellSeq_twice_display (ps : List (Nat × Nat)) (d : Nat → Bool)
    (hnd : List.Pairwise (fun p q => p.1 ≠ q.1) ps) (i : Nat) :
    (cellSeq ps (cellSeq ps d 0).1 0).1 i = d i := by
  by_cases h : ∃ p ∈ ps, p.1 = i
  · rcases h with ⟨⟨i', b⟩, hp, he⟩
    have he' : i' = i := he
    subst he'
    rw [cellSeq_display_mem ps _ 0 i' b hnd hp, cellSeq_display_mem ps d 0 i' b hnd hp]
    exact bool_xor_xor _ _
  · have hni : ∀ q ∈ ps, q.1 ≠ i := fun q hq hcon => h ⟨q, hq, hcon⟩
    rw [cellSeq_display_not_mem ps _ 0 i hni, cellSeq_display_not_mem ps d 0 i hni]

/-- The second of two identical flat loops reports no collision exactly when
every pair with a set sprite bit sat over an initially set cell. -/
theorem cellSeq_twice_vf (ps : List (Nat × Nat)) (d : Nat → Bool)
    (hnd : List.Pairwise (fun p q => p.1 ≠ q.1) ps) :
    ((cellSeq ps (cellSeq ps d 0).1 0).2 = 0 ↔ ∀ q ∈ ps, q.2 = 1 → d q.1 = true) := by
  rw [cellSeq_vf ps _ 0 hnd]
  have hcond : (∃ q ∈ ps, q.2 = 1 ∧ (cellSeq ps d 0).1 q.1 = true) ↔
      (∃ q ∈ ps, q.2 = 1 ∧ d q.1 = false) := by
    constructor
    · rintro ⟨⟨i, b⟩, hq, h1, h2⟩
      refine ⟨(i, b), hq, h1, ?_⟩
      rw [cellSeq_display_mem ps d 0 i b hnd hq] at h2
      have hb : (b == 1) = true := by
        have hb1 : b = 1 := h1
        simp [hb1]
      rw [hb] at h2
      cases hdi : d i
      · rfl
      · rw [hdi] at h2
        exact absurd h2 (by decide)
    · rintro ⟨⟨i, b⟩, hq, h1, h2⟩
      refine ⟨(i, b), hq, h1, ?_⟩
      rw [cellSeq_display_mem ps d 0 i b hnd hq]
      have hb : (b == 1) = true := by
        have hb1 : b = 1 := h1
        simp [hb1]
      rw [hb, h2]
      rfl
  rw [if_congr hcond rfl rfl]
  by_cases h : ∃ q ∈ ps, q.2 = 1 ∧ d q.1 = false
  · rw [if_pos h]
    refine iff_of_false one_ne_zero ?_
    intro hall
    rcases h with ⟨q, hq, h1, h2⟩
    rw [hall q hq h1] at h2
    exact Bool.noConfusion h2
  · rw [if_neg h]
    refine iff_of_true rfl ?_
    intro q hq h1
    by_contra hcon
    refine h ⟨q, hq, h1, ?_⟩
    revert hcon
    cases d q.1 <;> simp

/-- C3: the Dxyn draw resets VF, XORs each sprite bit (msb first) into the
framebuffer cell at ((vx + col) mod 64, (vy + row) mod 32), touches no other
cell, and ends with VF = 1 exactly when a set bit hit an already-set cell. -/
theorem claim_C3 (c : CPU) (rb x y n : Nat) (hx : x < 16) (hy : y < 16) (hn : n < 16)
    (hI : c.i_register + n ≤ RAM_SIZE) :
    ∃ c', c.execute (0xD000 + 256 * x + 16 * y + n) rb = some c' ∧
      (∀ r col, r < n → col < 8 →
        c'.screen.display (drawIdx (c.v_registers x) (c.v_registers y) r col) =
          xor (c.screen.display (drawIdx (c.v_registers x) (c.v_registers y) r col))
            (c.ram.data (c.i_register + r) / 2 ^ (7 - col) % 2 == 1)) ∧
      (∀ i, (∀ r col, r < n → col < 8 →
          i ≠ drawIdx (c.v_registers x) (c.v_registers y) r col) →
        c'.screen.display i = c.screen.display i) ∧
      (c'.v_registers 15 = 0 ∨ c'.v_registers 15 = 1) ∧
      (c'.v_registers 15 = 1 ↔ ∃ r col, r < n ∧ col < 8 ∧
        c.ram.data (c.i_register + r) / 2 ^ (7 - col) % 2 = 1 ∧
        c.screen.display (drawIdx (c.v_registers x) (c.v_registers y) r col) = true) := by
  rw [exec_Dxyn_eq c rb x y n hx hy hn hI]
  have hnd : List.Pairwise (fun p q => p.1 ≠ q.1)
      (pairsOf (fun r => c.ram.data (c.i_register + r))
        (c.v_registers x) (c.v_registers y) (List.range n)) :=
    pairwise_pairsOf _ _ _ _ (List.nodup_range n)
      (fun r hr => by have := List.mem_range.mp hr; omega)
  have hvf := cellSeq_vf
    (pairsOf (fun r => c.ram.data (c.i_register + r))
      (c.v_registers x) (c.v_registers y) (List.range n)) c.screen.display 0 hnd
  refine ⟨_, rfl, ?_, ?_, ?_, ?_⟩
  · intro r col hr hcol
    exact cellSeq_display_mem _ _ _ _ _ hnd
      ((mem_pairsOf _ _ _ _ _).mpr ⟨r, List.mem_range.mpr hr,
        (mem_rowPairs _ _ _ _ _).mpr ⟨col, hcol, rfl⟩⟩)
  · intro i hi
    refine cellSeq_display_not_mem _ _ _ _ ?_
    intro q hq
    rcases (mem_pairsOf _ _ _ _ q).mp hq with ⟨r, hr, hqr⟩
    rcases (mem_rowPairs _ _ _ _ q).mp hqr with ⟨col, hcol, heq⟩
    rw [← heq]
    exact Ne.symm (hi r col (List.mem_range.mp hr) hcol)
  · dsimp only
    rw [upd_same, hvf]
    split
    · exact Or.inr rfl
    · exact Or.inl rfl
  · dsimp only
    rw [upd_same, hvf]
    have hPQ : (∃ q ∈ pairsOf (fun r => c.ram.data (c.i_register + r))
          (c.v_registers x) (c.v_registers y) (List.range n),
          q.2 = 1 ∧ c.screen.display q.1 = true) ↔
        (∃ r col, r < n ∧ col < 8 ∧
          c.ram.data (c.i_register + r) / 2 ^ (7 - col) % 2 = 1 ∧
          c.screen.display (drawIdx (c.v_registers x) (c.v_registers y) r col) = true) := by
      constructor
      · rintro ⟨q, hq, h1, h2⟩
        rcases (mem_pairsOf _ _ _ _ q).mp hq with ⟨r, hr, hqr⟩
        rcases (mem_rowPairs _ _ _ _ q).mp hqr with ⟨col, hcol, heq⟩
        rw [← heq] at h1 h2
        exact ⟨r, col, List.mem_range.mp hr, hcol, h1, h2⟩
      · rintro ⟨r, col, hr, hcol, h1, h2⟩
        exact ⟨(drawIdx (c.v_registers x) (c.v_registers y) r col,
            c.ram.data (c.i_register + r) / 2 ^ (7 - col) % 2),
          (mem_pairsOf _ _ _ _ _).mpr ⟨r, List.mem_range.mpr hr,
            (mem_rowPairs _ _ _ _ _).mpr ⟨col, hcol, rfl⟩⟩, h1, h2⟩
    split
    · exact iff_of_true rfl (hPQ.mp (by assumption))
    · exact iff_of_false (by omega) (fun hq => (by assumption : ¬_) (hPQ.mpr hq))

/-- C3 witness: the one-row sprite 0x80 at I = 0x300 drawn at (0, 0) on the
fixture machine. -/
theorem claim_C3_witness :
    ∃ c', cexC6.execute (0xD000 + 256 * 0 + 16 * 0 + 1) 0 = some c' ∧
      (∀ r col, r < 1 → col < 8 →
        c'.screen.display (drawIdx (cexC6.v_registers 0) (cexC6.v_registers 0) r col) =
          xor (cexC6.screen.display (drawIdx (cexC6.v_registers 0) (cexC6.v_registers 0) r col))
            (cexC6.ram.data (cexC6.i_register + r) / 2 ^ (7 - col) % 2 == 1)) ∧
      (∀ i, (∀ r col, r < 1 → col < 8 →
          i ≠ drawIdx (cexC6.v_registers 0) (cexC6.v_registers 0) r col) →
        c'.screen.display i = cexC6.screen.display i) ∧
      (c'.v_registers 15 = 0 ∨ c'.v_registers 15 = 1) ∧
      (c'.v_registers 15 = 1 ↔ ∃ r col, r < 1 ∧ col < 8 ∧
        cexC6.ram.data (cexC6.i_register + r) / 2 ^ (7 - col) % 2 = 1 ∧
        cexC6.screen.display (drawIdx (cexC6.v_registers 0) (cexC6.v_registers 0) r col) = true) :=
  claim_C3 cexC6 0 0 0 1 (by decide) (by decide) (by decide) (by decide)

/-- C6 counterexample: sprite 0x80 (bit set only at column 0) drawn twice at
(0, 0) on a screen whose cells 0 and 1 start set.  The second draw reports no
collision (VF = 0), yet the drawn cell at column 1 has sprite bit 0 and was
already set before the first draw — a set pixel outside the sprite's own
image at a drawn cell.  This refutes the claim's "no collision on the second
draw only if no pixel outside the sprite's own first-draw image was already
set at the drawn cells". -/
theorem claim_C6_counterexample :
    ((cexC6.execute 0xD001 0).bind (fun s1 => s1.execute 0xD001 0)).map
        (fun s2 => s2.v_registers 15) = some 0 ∧
    cexC6.ram.data (cexC6.i_register + 0) / 2 ^ (7 - 1) % 2 = 0 ∧
    cexC6.screen.display (drawIdx (cexC6.v_registers 0) (cexC6.v_registers 0) 0 1) = true :=
  ⟨rfl, rfl, rfl⟩

/-- C6 (amended): drawing the same sprite twice in succession (coordinate
registers not the flag register, so they are unchanged between the draws)
restores every framebuffer cell, and the second draw reports no collision if
and only if every cell where the sprite has a SET bit was already set before
the first draw. -/
theorem claim_C6 (c : CPU) (rb1 rb2 x y n : Nat) (hx : x < 16) (hy : y < 16) (hn : n < 16)
    (hx15 : x ≠ 15) (hy15 : y ≠ 15) (hI : c.i_register + n ≤ RAM_SIZE) :
    ∃ c1 c2, c.execute (0xD000 + 256 * x + 16 * y + n) rb1 = some c1 ∧
      c1.execute (0xD000 + 256 * x + 16 * y + n) rb2 = some c2 ∧
      (∀ i, c2.screen.display i = c.screen.display i) ∧
      (c2.v_registers 15 = 0 ↔ ∀ r col, r < n → col < 8 →
        c.ram.data (c.i_register + r) / 2 ^ (7 - col) % 2 = 1 →
        c.screen.display (drawIdx (c.v_registers x) (c.v_registers y) r col) = true) := by
  have hnd : List.Pairwise (fun p q => p.1 ≠ q.1)
      (pairsOf (fun r => c.ram.data (c.i_register + r))
        (c.v_registers x) (c.v_registers y) (List.range n)) :=
    pairwise_pairsOf _ _ _ _ (List.nodup_range n)
      (fun r hr => by have := List.mem_range.mp hr; omega)
  rw [exec_Dxyn_eq c rb1 x y n hx hy hn hI]
  have h2 := exec_Dxyn_eq
    { c with
      screen := ⟨(cellSeq (pairsOf (fun r => c.ram.data (c.i_register + r))
        (c.v_registers x) (c.v_registers y) (List.range n)) c.screen.display 0).1⟩
      v_registers := (upd (upd c.v_registers 15 0) 15
        (cellSeq (pairsOf (fun r => c.ram.data (c.i_register + r))
          (c.v_registers x) (c.v_registers y) (List.range n)) c.screen.display 0).2) }
    rb2 x y n hx hy hn hI
  refine ⟨_, _, rfl, h2, ?_, ?_⟩
  · intro i
    dsimp only
    rw [upd_ne _ _ _ _ hx15, upd_ne _ _ _ _ hx15, upd_ne _ _ _ _ hy15, upd_ne _ _ _ _ hy15]
    exact cellSeq_twice_display _ _ hnd i
  · dsimp only
    rw [upd_ne _ _ _ _ hx15, upd_ne _ _ _ _ hx15, upd_ne _ _ _ _ hy15, upd_ne _ _ _ _ hy15,
      upd_same]
    refine (cellSeq_twice_vf _ _ hnd).trans ?_
    constructor
    · intro hall r col hr hcol h1
      exact hall (drawIdx (c.v_registers x) (c.v_registers y) r col,
          c.ram.data (c.i_register + r) / 2 ^ (7 - col) % 2)
        ((mem_pairsOf _ _ _ _ _).mpr ⟨r, List.mem_range.mpr hr,
          (mem_rowPairs _ _ _ _ _).mpr ⟨col, hcol, rfl⟩⟩) h1
    · intro hall q hq h1
      rcases (mem_pairsOf _ _ _ _ q).mp hq with ⟨r, hr, hqr⟩
      rcases (mem_rowPairs _ _ _ _ q).mp hqr with ⟨col, hcol, heq⟩
      rw [← heq] at h1 ⊢
      exact hall r col (List.mem_range.mp hr) hcol h1

/-- C6 witness: the fixture machine, sprite 0x80 at I = 0x300 drawn twice at
(0, 0). -/
theorem claim_C6_witness :
    ∃ c1 c2, cexC6.execute (0xD000 + 256 * 0 + 16 * 0 + 1) 0 = some c1 ∧
      c1.execute (0xD000 + 256 * 0 + 16 * 0 + 1) 0 = some c2 ∧
      (∀ i, c2.screen.display i = cexC6.screen.display i) ∧
      (c2.v_registers 15 = 0 ↔ ∀ r col, r < 1 → col < 8 →
        cexC6.ram.data (cexC6.i_register + r) / 2 ^ (7 - col) % 2 = 1 →
        cexC6.screen.display (drawIdx (cexC6.v_registers 0) (cexC6.v_registers 0) r col) = true) :=
  claim_C6 cexC6 0 0 0 0 1 (by decide) (by decide) (by decide) (by decide) (by decide) (by decide)

end Chip8
